import Mathlib

/-!
Verification of the beetle-detector pipeline scripts.

This file gives a shallow embedding of the two routines with original logic:

* the cleaning filter of scripts/02_clean_and_export_yolo.py
  (function filter_small_boxes), which removes bounding boxes below
  size/area thresholds, deletes samples left with no boxes, and reports
  before/after counts; and

* the inference CLI of scripts/05_infer_cli.py (functions
  process_single_image, process_batch_images, save_results_json and
  get_image_files).

The scripts' floating-point arithmetic is modelled over the rationals; the
external collaborators (the dataset store, the detector, the filesystem and
the wall clock) are modelled as explicit parameters.  Fallible paths are
modelled with Except / Option.
-/

namespace Beetle

/-! ### Data model of the cleaning filter (02_clean_and_export_yolo.py) -/

/-- A ground-truth detection.  The source reads d.bounding_box as the
normalized [x, y, w, h] quadruple (each coordinate a fraction of the image
dimension). -/
structure Detection where
  x : ℚ
  y : ℚ
  w : ℚ
  h : ℚ
deriving DecidableEq

/-- Image metadata carried by a sample: pixel width and height
(sample.metadata.width / sample.metadata.height in the source). -/
structure Metadata where
  width : ℚ
  height : ℚ
deriving DecidableEq

/-- One dataset sample: an identifier, image metadata, and the detections
field.  In the source, sample.detections is either None (modelled as
Option.none, the falsy case of the "if not det" test) or a label object
holding a list of detections (modelled as Option.some). -/
structure Sample where
  id : ℕ
  metadata : Metadata
  detections : Option (List Detection)
deriving DecidableEq

/-- The per-box test of filter_small_boxes (lines 40-45 of the script):
with pixel width w = d.w * width, pixel height h = d.h * height and
area = w * h, keep the box iff
w >= min_side and h >= min_side and area >= min_area. -/
def keepBox (md : Metadata) (minSide minArea : ℚ) (d : Detection) : Bool :=
  decide (minSide ≤ d.w * md.width) && decide (minSide ≤ d.h * md.height) &&
    decide (minArea ≤ d.w * md.width * (d.h * md.height))

/-- State accumulated by the sample loop of filter_small_boxes: the samples
that survive (with their detections replaced by the kept list), the number
of samples marked for deletion, and the total box counts before and after
filtering. -/
structure PassResult where
  store : List Sample
  deleted : ℕ
  before : ℕ
  after : ℕ
deriving DecidableEq

/-- The sample loop of filter_small_boxes (lines 29-59).  For each sample:
a falsy detections field marks the sample for deletion; otherwise the kept
list is computed with keepBox, and the sample either survives with exactly
the kept boxes (and its box counts accumulated) or is marked for deletion
when no box is kept.  Marked samples are removed from the store, matching
dataset.delete_samples on the collected ids (ids are unique in the store,
so deletion by id removes exactly the marked samples). -/
def cleanPass (minSide minArea : ℚ) : List Sample → PassResult
  | [] => ⟨[], 0, 0, 0⟩
  | s :: rest =>
    let r := cleanPass minSide minArea rest
    match s.detections with
    | none => ⟨r.store, r.deleted + 1, r.before, r.after⟩
    | some dets =>
      let keep := dets.filter (keepBox s.metadata minSide minArea)
      if keep.isEmpty then
        ⟨r.store, r.deleted + 1, r.before + dets.length, r.after⟩
      else
        ⟨{ s with detections := some keep } :: r.store, r.deleted,
          r.before + dets.length, r.after + keep.length⟩

/-- Full outcome of one filter_small_boxes call.  The field returned models
the value of the Python call: line 63 of the script prints the removal rate
by dividing by total_boxes_before, so when that count is zero the call
raises ZeroDivisionError after the deletion has already been applied
(modelled as Option.none); otherwise it returns the pair
(len(to_delete), total_boxes_before - total_boxes_after). -/
structure CleanResult where
  store : List Sample
  deletedSamples : ℕ
  boxesBefore : ℕ
  boxesAfter : ℕ
  returned : Option (ℕ × ℕ)
deriving DecidableEq

/-- Embedding of filter_small_boxes(dataset, min_side, min_area)
(lines 13-65 of scripts/02_clean_and_export_yolo.py). -/
def filter_small_boxes (dataset : List Sample) (minSide minArea : ℚ) : CleanResult :=
  let r := cleanPass minSide minArea dataset
  ⟨r.store, r.deleted, r.before, r.after,
    if r.before = 0 then none else some (r.deleted, r.before - r.after)⟩

/-- Detections carried by a sample, reading a falsy field as the empty
list (such a sample contributes no boxes to any count). -/
def boxList (s : Sample) : List Detection := s.detections.getD []

/-- Number of detections of a sample that fail at least one threshold. -/
def failingCount (minSide minArea : ℚ) (s : Sample) : ℕ :=
  ((boxList s).filter (fun d => !keepBox s.metadata minSide minArea d)).length

/-- Number of detections failing at least one threshold, summed over all
input samples. -/
def totalFailing (minSide minArea : ℚ) (dataset : List Sample) : ℕ :=
  (dataset.map (failingCount minSide minArea)).sum

/-- A sample in which every detection fails at least one threshold, or
whose detections field is falsy. -/
def failsAll (minSide minArea : ℚ) (s : Sample) : Prop :=
  s.detections = none ∨
    ∃ dets, s.detections = some dets ∧
      ∀ d ∈ dets, keepBox s.metadata minSide minArea d = false

/-! ### Data model of the inference CLI (05_infer_cli.py) -/

/-- One raw box of the detector result (result.boxes entries): class index,
confidence, and absolute corner coordinates. -/
structure RawBox where
  cls : ℤ
  conf : ℚ
  x1 : ℚ
  y1 : ℚ
  x2 : ℚ
  y2 : ℚ
deriving DecidableEq

/-- A normalized detection dict as built by process_single_image
(lines 72-77): class id, class name, confidence, bbox corners. -/
structure PredDetection where
  class_id : ℤ
  class_name : String
  confidence : ℚ
  bbox : ℚ × ℚ × ℚ × ℚ
deriving DecidableEq

/-- The result_info dict returned by process_single_image
(lines 96-102). -/
structure InferenceRecord where
  image_path : String
  inference_time_ms : ℚ
  num_detections : ℕ
  detections : List PredDetection
  output_path : Option String
deriving DecidableEq

/-- External collaborators of the inference CLI: the filesystem existence
check, the detector (returning result.boxes, possibly None, for an image
path at a confidence threshold), the measured wall-clock inference time in
milliseconds for an image, and the class-name table model.names. -/
structure Env where
  fileExists : String → Bool
  modelBoxes : String → ℚ → Option (List RawBox)
  timeMs : String → ℚ
  names : ℤ → String

/-! ### Path helpers modelling pathlib / os.path on POSIX paths -/

/-- Final path component, as pathlib computes it (empty segments from
duplicate or trailing slashes are dropped). -/
def lastComponent (p : List Char) : List Char :=
  ((p.splitOn '/').filter (fun c => c ≠ [])).getLastD []

/-- Index of the last dot of a name, -1 when there is none (Python
str.rfind). -/
def lastDotIdx (name : List Char) : ℤ :=
  match name.reverse.findIdx? (fun c => c == '.') with
  | none => -1
  | some j => (name.length : ℤ) - 1 - (j : ℤ)

/-- Stem of a path name: pathlib drops the suffix only when the last dot
is at an index i with 0 < i < len(name) - 1. -/
def stemSplit (name : List Char) : List Char :=
  let i := lastDotIdx name
  if 0 < i ∧ i < (name.length : ℤ) - 1 then name.take i.toNat else name

/-- Suffix of a path name under the same convention as stemSplit. -/
def suffixSplit (name : List Char) : List Char :=
  let i := lastDotIdx name
  if 0 < i ∧ i < (name.length : ℤ) - 1 then name.drop i.toNat else []

/-- Embedding of pathlib.Path(p).stem. -/
def pathStem (p : String) : String := ⟨stemSplit (lastComponent p.data)⟩

/-- Embedding of pathlib.Path(p).suffix. -/
def pathSuffix (p : String) : String := ⟨suffixSplit (lastComponent p.data)⟩

/-- ASCII lower-casing, as str.lower applies to the extension strings in
the script. -/
def lowerStr (s : String) : String := ⟨s.data.map Char.toLower⟩

/-- ASCII upper-casing (str.upper). -/
def upperStr (s : String) : String := ⟨s.data.map Char.toUpper⟩

/-- Embedding of os.path.join(dir, name) for the names produced here
(never absolute): the separator is inserted unless the directory part is
empty or already ends with a slash. -/
def osJoin (dir name : String) : String :=
  if dir = "" then name
  else if dir.data.getLast? = some '/' then dir ++ name
  else dir ++ "/" ++ name

/-! ### process_single_image and process_batch_images -/

/-- Normalization of one raw detector box into the detection dict
(lines 72-77 of 05_infer_cli.py). -/
def toDetection (names : ℤ → String) (b : RawBox) : PredDetection :=
  ⟨b.cls, names b.cls, b.conf, (b.x1, b.y1, b.x2, b.y2)⟩

/-- The record built by the body of process_single_image once the image
exists: detections are the normalized boxes (the empty list when
result.boxes is None); an annotated image is written, and its path
recorded, exactly when save_result holds and at least one detection
exists, under the name stem + "_result.jpg" inside output_dir. -/
def mkRecord (env : Env) (image_path : String) (conf : ℚ) (save_result : Bool)
    (output_dir : String) : InferenceRecord :=
  let raw := (env.modelBoxes image_path conf).getD []
  let detections := raw.map (toDetection env.names)
  let output_path :=
    if save_result && !detections.isEmpty then
      some (osJoin output_dir (pathStem image_path ++ "_result.jpg"))
    else none
  ⟨image_path, env.timeMs image_path, detections.length, detections, output_path⟩

/-- Embedding of process_single_image (lines 41-104): a missing image path
raises FileNotFoundError (modelled as Except.error); otherwise the
result_info record is returned. -/
def process_single_image (env : Env) (image_path : String) (conf : ℚ)
    (save_result : Bool) (output_dir : String) : Except String InferenceRecord :=
  if env.fileExists image_path then
    .ok (mkRecord env image_path conf save_result output_dir)
  else
    .error ("Image file not found: " ++ image_path)

/-- The per-image loop of process_batch_images (lines 128-145): each image
is processed by process_single_image inside a try/except that logs the
failure and continues, so exactly the successful records are accumulated,
in order. -/
def batchLoop (env : Env) (conf : ℚ) (save : Bool) (outdir : String) :
    List String → List InferenceRecord
  | [] => []
  | p :: rest =>
    match process_single_image env p conf save outdir with
    | .ok r => r :: batchLoop env conf save outdir rest
    | .error _ => batchLoop env conf save outdir rest

/-- The statistics block of process_batch_images (lines 147-149):
avg_time = total_time / len(all_results) if all_results else 0, and
avg_fps = 1000 / avg_time if avg_time > 0 else 0, where total_time is the
sum of the successful records' inference times. -/
def batchStats (records : List InferenceRecord) : ℚ × ℚ :=
  let avg_time : ℚ :=
    if records.isEmpty then 0
    else (records.map (fun r => r.inference_time_ms)).sum / (records.length : ℚ)
  let avg_fps : ℚ := if 0 < avg_time then 1000 / avg_time else 0
  (avg_time, avg_fps)

/-- Outcome of one process_batch_images call: the accumulated records and
the reported average time and FPS. -/
structure BatchResult where
  results : List InferenceRecord
  avg_time : ℚ
  avg_fps : ℚ
deriving DecidableEq

/-- Embedding of process_batch_images (lines 106-157). -/
def process_batch_images (env : Env) (paths : List String) (conf : ℚ)
    (save : Bool) (outdir : String) : BatchResult :=
  let rs := batchLoop env conf save outdir paths
  ⟨rs, (batchStats rs).1, (batchStats rs).2⟩

/-- Embedding of numpy.mean on a list: the mean for a nonempty list, and
NaN (modelled as Option.none) for the empty list. -/
def npMean (l : List ℚ) : Option ℚ :=
  if l.isEmpty then none else some (l.sum / (l.length : ℚ))

/-- The summary object written by save_results_json (lines 168-174);
avg_inference_time_ms is numpy.mean over the records' inference times. -/
structure Summary where
  total_images : ℕ
  total_detections : ℕ
  avg_inference_time_ms : Option ℚ
deriving DecidableEq

/-- Embedding of the summary construction of save_results_json. -/
def save_results_json_summary (results : List InferenceRecord) : Summary :=
  ⟨results.length, (results.map (fun r => r.num_detections)).sum,
    npMean (results.map (fun r => r.inference_time_ms))⟩

/-! ### get_image_files -/

/-- The fixed extension allow-list of get_image_files (line 197).  The
source uses a set literal; only membership and iteration matter, and the
final sort makes the iteration order irrelevant. -/
def image_extensions : List String := [".jpg", ".jpeg", ".png", ".bmp", ".tiff", ".webp"]

/-- Filesystem collaborator of get_image_files: existence tests, the
entries directly inside a directory (names, non-recursive), and glob
expansion of a pattern. -/
structure FileSys where
  isFile : String → Bool
  isDir : String → Bool
  dirEntries : String → List String
  globResult : String → List String

/-- Matching of a directory entry name against the pattern "*" + ext used
by source_path.glob(f"*{ext}"): the star matches any (possibly empty)
leading part, so a name matches iff ext is a suffix of it. -/
def matchesStar (pat name : String) : Bool := pat.data.isSuffixOf name.data

/-- The glob patterns tried in the directory branch, in iteration order:
for each extension, the original-case and the upper-case variant
(lines 208-210). -/
def dirPatterns : List String :=
  image_extensions.flatMap (fun ext => [ext, upperStr ext])

/-- Path of a directory entry as returned by source_path.glob: the
directory path joined with the entry name (directory paths are assumed
normalized, without a trailing slash). -/
def joinPath (dir name : String) : String := dir ++ "/" ++ name

/-- Boolean string comparison by code points (lexicographic on the
character lists), the order Python sorted uses on str; it agrees with the
string order of Mathlib (see strLe_iff below). -/
def strLe (a b : String) : Bool := decide (a.data ≤ b.data)

/-- Sorting applied by the final return sorted(image_files); the order is
the lexicographic string order, as in Python. -/
def sortStrings (l : List String) : List String :=
  l.mergeSort strLe

/-- The image_files list accumulated by get_image_files before the final
sort: a single file is kept iff its lower-cased suffix is in the
allow-list; a directory yields the entries matching each pattern of
dirPatterns; any other source is expanded as a glob and filtered by the
allow-list. -/
def rawImageFiles (fs : FileSys) (source : String) : List String :=
  if fs.isFile source then
    if image_extensions.contains (lowerStr (pathSuffix source)) then [source] else []
  else if fs.isDir source then
    dirPatterns.flatMap (fun pat =>
      ((fs.dirEntries source).filter (fun n => matchesStar pat n)).map
        (fun n => joinPath source n))
  else
    (fs.globResult source).filter
      (fun f => image_extensions.contains (lowerStr (pathSuffix f)))

/-- Embedding of get_image_files (lines 186-218): the accumulated list,
returned sorted. -/
def get_image_files (fs : FileSys) (source : String) : List String :=
  sortStrings (rawImageFiles fs source)

/-! ### Concrete fixtures used by witness and counterexample theorems -/

/-- Witness sample whose single box covers its whole 100 x 100 image. -/
def wSample : Sample := ⟨1, ⟨100, 100⟩, some [⟨0, 0, 1, 1⟩]⟩

/-- Witness sample whose single box covers its whole 2 x 2 image, hence is
only 2 x 2 px with area 4. -/
def wSmall : Sample := ⟨2, ⟨2, 2⟩, some [⟨0, 0, 1, 1⟩]⟩

/-- Witness sample with an empty detections list. -/
def wEmpty : Sample := ⟨3, ⟨100, 100⟩, some []⟩

/-- Witness sample with a falsy detections field. -/
def wNone : Sample := ⟨4, ⟨100, 100⟩, none⟩

/-- Witness detector box. -/
def wBox : RawBox := ⟨0, 1, 1, 2, 3, 4⟩

/-- Witness environment: every path exists, one detection per image,
per-path inference times of 10, 20 and 30 ms. -/
def wEnvT : Env :=
  ⟨fun _ => true, fun _ _ => some [wBox],
   fun p => if p == "a.jpg" then 10 else if p == "b.jpg" then 20 else 30,
   fun _ => "Beetle"⟩

/-- Witness environment in which only a.jpg and c.jpg exist. -/
def wEnvM : Env :=
  ⟨fun p => (p == "a.jpg") || (p == "c.jpg"), fun _ _ => some [wBox],
   fun _ => 5, fun _ => "Beetle"⟩

/-- Witness environment with no detections for any image. -/
def wEnvZ : Env :=
  ⟨fun _ => true, fun _ _ => some [], fun _ => 5, fun _ => "Beetle"⟩

/-- Witness filesystem: one directory imgs containing a.jpg, b.PNG and
c.txt; nothing else exists and no glob pattern matches. -/
def wFS : FileSys :=
  ⟨fun _ => false, fun s => s == "imgs",
   fun _ => ["a.jpg", "b.PNG", "c.txt"], fun _ => []⟩

/-! ### Helper lemmas for the cleaning filter -/

theorem length_filter_split {α : Type} (p : α → Bool) (l : List α) :
    (l.filter p).length + (l.filter (fun a => !p a)).length = l.length := by
  induction l with
  | nil => simp
  | cons a l ih =>
    by_cases h : p a <;> simp [List.filter_cons, h] <;> omega

theorem natSum_eq_zero {l : List ℕ} : l.sum = 0 ↔ ∀ n ∈ l, n = 0 := by
  induction l with
  | nil => simp
  | cons a l ih => simp [List.sum_cons, ih, Nat.add_eq_zero]

theorem sample_eta (s : Sample) (l : List Detection) (h : s.detections = some l) :
    { s with detections := some l } = s := by
  cases s with
  | mk i m d => simp only at h; rw [h]

theorem cleanPass_nil (ms ma : ℚ) : cleanPass ms ma [] = ⟨[], 0, 0, 0⟩ := rfl

theorem cleanPass_cons_none {s : Sample} (hdet : s.detections = none)
    (ms ma : ℚ) (rest : List Sample) :
    cleanPass ms ma (s :: rest) =
      ⟨(cleanPass ms ma rest).store, (cleanPass ms ma rest).deleted + 1,
        (cleanPass ms ma rest).before, (cleanPass ms ma rest).after⟩ := by
  simp [cleanPass, hdet]

theorem cleanPass_cons_del {ms ma : ℚ} {s : Sample} {dets : List Detection}
    (hdet : s.detections = some dets)
    (hk : dets.filter (keepBox s.metadata ms ma) = []) (rest : List Sample) :
    cleanPass ms ma (s :: rest) =
      ⟨(cleanPass ms ma rest).store, (cleanPass ms ma rest).deleted + 1,
        (cleanPass ms ma rest).before + dets.length, (cleanPass ms ma rest).after⟩ := by
  have hk2 : (dets.filter (keepBox s.metadata ms ma)).isEmpty = true := by
    simp [List.isEmpty_iff, hk]
  simp [cleanPass, hdet, hk2]

theorem cleanPass_cons_keep {ms ma : ℚ} {s : Sample} {dets : List Detection}
    (hdet : s.detections = some dets)
    (hk : dets.filter (keepBox s.metadata ms ma) ≠ []) (rest : List Sample) :
    cleanPass ms ma (s :: rest) =
      ⟨{ s with detections := some (dets.filter (keepBox s.metadata ms ma)) } ::
          (cleanPass ms ma rest).store,
        (cleanPass ms ma rest).deleted,
        (cleanPass ms ma rest).before + dets.length,
        (cleanPass ms ma rest).after + (dets.filter (keepBox s.metadata ms ma)).length⟩ := by
  have hk2 : (dets.filter (keepBox s.metadata ms ma)).isEmpty = false := by
    simpa [List.isEmpty_iff] using hk
  simp [cleanPass, hdet, hk2]

theorem cleanPass_before_split (ms ma : ℚ) (ds : List Sample) :
    (cleanPass ms ma ds).before = (cleanPass ms ma ds).after + totalFailing ms ma ds := by
  induction ds with
  | nil => simp [cleanPass_nil, totalFailing]
  | cons s rest ih =>
    have hfail : totalFailing ms ma (s :: rest) =
        failingCount ms ma s + totalFailing ms ma rest := by
      simp [totalFailing]
    cases hdet : s.detections with
    | none =>
      have h0 : failingCount ms ma s = 0 := by simp [failingCount, boxList, hdet]
      rw [cleanPass_cons_none hdet, hfail, h0]
      simpa using ih
    | some dets =>
      have hsplit := length_filter_split (keepBox s.metadata ms ma) dets
      have hfc : failingCount ms ma s =
          (dets.filter (fun d => !keepBox s.metadata ms ma d)).length := by
        simp [failingCount, boxList, hdet]
      by_cases hk : dets.filter (keepBox s.metadata ms ma) = []
      · rw [cleanPass_cons_del hdet hk, hfail, hfc]
        have hk0 : (dets.filter (keepBox s.metadata ms ma)).length = 0 := by simp [hk]
        simp only []
        omega
      · rw [cleanPass_cons_keep hdet hk, hfail, hfc]
        simp only []
        omega

theorem cleanPass_after_sum (ms ma : ℚ) (ds : List Sample) :
    (cleanPass ms ma ds).after =
      ((cleanPass ms ma ds).store.map (fun t => (boxList t).length)).sum := by
  induction ds with
  | nil => simp [cleanPass_nil]
  | cons s rest ih =>
    cases hdet : s.detections with
    | none => rw [cleanPass_cons_none hdet]; simpa using ih
    | some dets =>
      by_cases hk : dets.filter (keepBox s.metadata ms ma) = []
      · rw [cleanPass_cons_del hdet hk]; simpa using ih
      · rw [cleanPass_cons_keep hdet hk]
        simp [boxList, ih, Nat.add_comm]

theorem cleanPass_before_boxes (ms ma : ℚ) (ds : List Sample) :
    (cleanPass ms ma ds).before = (ds.map (fun s => (boxList s).length)).sum := by
  induction ds with
  | nil => simp [cleanPass_nil]
  | cons s rest ih =>
    cases hdet : s.detections with
    | none =>
      rw [cleanPass_cons_none hdet]
      simp [boxList, hdet, ih]
    | some dets =>
      by_cases hk : dets.filter (keepBox s.metadata ms ma) = []
      · rw [cleanPass_cons_del hdet hk]
        simp [boxList, hdet, ih, Nat.add_comm]
      · rw [cleanPass_cons_keep hdet hk]
        simp [boxList, hdet, ih, Nat.add_comm]

theorem mem_cleanPass_store {ms ma : ℚ} (ds : List Sample) (t : Sample) :
    t ∈ (cleanPass ms ma ds).store →
    ∃ s ∈ ds, ∃ dets, s.detections = some dets ∧
      dets.filter (keepBox s.metadata ms ma) ≠ [] ∧
      t = { s with detections := some (dets.filter (keepBox s.metadata ms ma)) } := by
  induction ds with
  | nil => intro ht; simp [cleanPass_nil] at ht
  | cons s rest ih =>
    intro ht
    cases hdet : s.detections with
    | none =>
      rw [cleanPass_cons_none hdet] at ht
      obtain ⟨u, hu, w⟩ := ih ht
      exact ⟨u, List.mem_cons_of_mem _ hu, w⟩
    | some dets =>
      by_cases hk : dets.filter (keepBox s.metadata ms ma) = []
      · rw [cleanPass_cons_del hdet hk] at ht
        obtain ⟨u, hu, w⟩ := ih ht
        exact ⟨u, List.mem_cons_of_mem _ hu, w⟩
      · rw [cleanPass_cons_keep hdet hk] at ht
        rcases List.mem_cons.1 ht with h | h
        · exact ⟨s, List.mem_cons_self .., dets, hdet, hk, h⟩
        · obtain ⟨u, hu, w⟩ := ih h
          exact ⟨u, List.mem_cons_of_mem _ hu, w⟩

theorem cleanPass_keeps {ms ma : ℚ} (ds : List Sample) (s : Sample) (dets : List Detection)
    (hdet : s.detections = some dets)
    (hne : dets.filter (keepBox s.metadata ms ma) ≠ []) :
    s ∈ ds →
    { s with detections := some (dets.filter (keepBox s.metadata ms ma)) } ∈
      (cleanPass ms ma ds).store := by
  induction ds with
  | nil => intro hs; simp at hs
  | cons a rest ih =>
    intro hs
    rcases List.mem_cons.1 hs with rfl | hs
    · rw [cleanPass_cons_keep hdet hne]
      exact List.mem_cons_self ..
    · have hmem := ih hs
      cases hdet2 : a.detections with
      | none => rw [cleanPass_cons_none hdet2]; exact hmem
      | some dets2 =>
        by_cases hk2 : dets2.filter (keepBox a.metadata ms ma) = []
        · rw [cleanPass_cons_del hdet2 hk2]; exact hmem
        · rw [cleanPass_cons_keep hdet2 hk2]
          exact List.mem_cons_of_mem _ hmem

theorem cleanPass_store_good {ms ma : ℚ} {ds : List Sample} {t : Sample}
    (ht : t ∈ (cleanPass ms ma ds).store) :
    ∃ l, t.detections = some l ∧ l ≠ [] ∧ ∀ d ∈ l, keepBox t.metadata ms ma d = true := by
  obtain ⟨s, _, dets, hdet, hne, rfl⟩ := mem_cleanPass_store ds t ht
  refine ⟨dets.filter (keepBox s.metadata ms ma), rfl, hne, ?_⟩
  intro d hd
  exact (List.mem_filter.1 hd).2

theorem cleanPass_noop {ms ma : ℚ} (ds : List Sample)
    (h : ∀ s ∈ ds, ∃ l, s.detections = some l ∧ l ≠ [] ∧
      ∀ d ∈ l, keepBox s.metadata ms ma d = true) :
    cleanPass ms ma ds =
      ⟨ds, 0, (ds.map (fun t => (boxList t).length)).sum,
        (ds.map (fun t => (boxList t).length)).sum⟩ := by
  induction ds with
  | nil => simp [cleanPass_nil]
  | cons s rest ih =>
    obtain ⟨l, hdet, hne, hall⟩ := h s (List.mem_cons_self ..)
    have hfilter : l.filter (keepBox s.metadata ms ma) = l := List.filter_eq_self.2 hall
    have hne2 : l.filter (keepBox s.metadata ms ma) ≠ [] := by rw [hfilter]; exact hne
    have hrest := ih (fun u hu => h u (List.mem_cons_of_mem _ hu))
    rw [cleanPass_cons_keep hdet hne2, hrest, hfilter, sample_eta s l hdet]
    simp [boxList, hdet, Nat.add_comm]

theorem filter_small_boxes_store (ds : List Sample) (ms ma : ℚ) :
    (filter_small_boxes ds ms ma).store = (cleanPass ms ma ds).store := rfl

theorem filter_small_boxes_deleted (ds : List Sample) (ms ma : ℚ) :
    (filter_small_boxes ds ms ma).deletedSamples = (cleanPass ms ma ds).deleted := rfl

theorem filter_small_boxes_before (ds : List Sample) (ms ma : ℚ) :
    (filter_small_boxes ds ms ma).boxesBefore = (cleanPass ms ma ds).before := rfl

theorem filter_small_boxes_after (ds : List Sample) (ms ma : ℚ) :
    (filter_small_boxes ds ms ma).boxesAfter = (cleanPass ms ma ds).after := rfl

theorem filter_small_boxes_returned (ds : List Sample) (ms ma : ℚ) :
    (filter_small_boxes ds ms ma).returned =
      if (cleanPass ms ma ds).before = 0 then none
      else some ((cleanPass ms ma ds).deleted,
        (cleanPass ms ma ds).before - (cleanPass ms ma ds).after) := rfl

/-! ### Claim theorems for the cleaning filter -/

/-! ### Evaluation lemmas for the concrete fixtures -/

theorem keep_wSample : keepBox wSample.metadata 8 64 ⟨0, 0, 1, 1⟩ = true := by
  simp only [keepBox, wSample, Bool.and_eq_true, decide_eq_true_eq]
  norm_num

theorem keep_wSmall : keepBox wSmall.metadata 8 64 ⟨0, 0, 1, 1⟩ = false := by
  simp only [keepBox, wSmall]
  norm_num

theorem filter_wSample :
    ([(⟨0, 0, 1, 1⟩ : Detection)]).filter (keepBox wSample.metadata 8 64) = [⟨0, 0, 1, 1⟩] := by
  simp [List.filter_cons, keep_wSample]

theorem filter_wSmall :
    ([(⟨0, 0, 1, 1⟩ : Detection)]).filter (keepBox wSmall.metadata 8 64) = [] := by
  simp [List.filter_cons, keep_wSmall]

theorem cleanPass_wNone : cleanPass 8 64 [wNone] = ⟨[], 1, 0, 0⟩ := by
  rw [cleanPass_cons_none rfl, cleanPass_nil]

theorem cleanPass_wSmall_wNone : cleanPass 8 64 [wSmall, wNone] = ⟨[], 2, 1, 0⟩ := by
  rw [cleanPass_cons_del rfl filter_wSmall, cleanPass_wNone]
  rfl

theorem cleanPass_w3 :
    cleanPass 8 64 [wSample, wSmall, wNone] =
      ⟨[{ wSample with detections :=
          (some ([(⟨0, 0, 1, 1⟩ : Detection)].filter (keepBox wSample.metadata 8 64))) }],
        2, 2, 1⟩ := by
  have hne : ([(⟨0, 0, 1, 1⟩ : Detection)]).filter (keepBox wSample.metadata 8 64) ≠ [] := by
    rw [filter_wSample]; exact List.cons_ne_nil _ _
  rw [cleanPass_cons_keep rfl hne, cleanPass_wSmall_wNone, filter_wSample]
  rfl

theorem cleanPass_w2 :
    cleanPass 8 64 [wSample, wSmall] =
      ⟨[{ wSample with detections :=
          (some ([(⟨0, 0, 1, 1⟩ : Detection)].filter (keepBox wSample.metadata 8 64))) }],
        1, 2, 1⟩ := by
  have hne : ([(⟨0, 0, 1, 1⟩ : Detection)]).filter (keepBox wSample.metadata 8 64) ≠ [] := by
    rw [filter_wSample]; exact List.cons_ne_nil _ _
  have h1 : cleanPass 8 64 [wSmall] = ⟨[], 1, 1, 0⟩ := by
    rw [cleanPass_cons_del rfl filter_wSmall, cleanPass_nil]
    rfl
  rw [cleanPass_cons_keep rfl hne, h1, filter_wSample]
  rfl

/-! ### Claim theorems for the cleaning filter -/

/-- C1: for every input collection and thresholds min_side, min_area, every
sample containing at least one detection whose pixel width, pixel height and
area each meet the thresholds survives filter_small_boxes: the store of the
result contains the sample with exactly the detections satisfying
pixel_w >= min_side and pixel_h >= min_side and area >= min_area retained,
and no others. -/
theorem C1_keeps_passing_samples (ds : List Sample) (ms ma : ℚ) (s : Sample)
    (dets : List Detection) (hs : s ∈ ds) (hdet : s.detections = some dets)
    (hpass : ∃ d ∈ dets, keepBox s.metadata ms ma d = true) :
    { s with detections := some (dets.filter (keepBox s.metadata ms ma)) } ∈
      (filter_small_boxes ds ms ma).store ∧
    ∀ d : Detection, d ∈ dets.filter (keepBox s.metadata ms ma) ↔
      (d ∈ dets ∧ ms ≤ d.w * s.metadata.width ∧ ms ≤ d.h * s.metadata.height ∧
        ma ≤ d.w * s.metadata.width * (d.h * s.metadata.height)) := by
  have hne : dets.filter (keepBox s.metadata ms ma) ≠ [] := by
    obtain ⟨d, hd, hk⟩ := hpass
    intro h
    have hmem : d ∈ dets.filter (keepBox s.metadata ms ma) := List.mem_filter.2 ⟨hd, hk⟩
    rw [h] at hmem
    simp at hmem
  refine ⟨?_, ?_⟩
  · rw [filter_small_boxes_store]
    exact cleanPass_keeps ds s dets hdet hne hs
  · intro d
    rw [List.mem_filter]
    simp [keepBox, and_assoc]

/-- Witness for C1 at a concrete input: a one-sample collection whose box
is 100 x 100 px (area 10000) against thresholds 8 and 64. -/
theorem C1_witness :
    wSample ∈ [wSample] ∧
    wSample.detections = some [⟨0, 0, 1, 1⟩] ∧
    (∃ d ∈ [(⟨0, 0, 1, 1⟩ : Detection)], keepBox wSample.metadata 8 64 d = true) ∧
    ({ wSample with detections :=
          (some ([(⟨0, 0, 1, 1⟩ : Detection)].filter (keepBox wSample.metadata 8 64))) } ∈
        (filter_small_boxes [wSample] 8 64).store ∧
      ∀ d : Detection,
        d ∈ [(⟨0, 0, 1, 1⟩ : Detection)].filter (keepBox wSample.metadata 8 64) ↔
        (d ∈ [(⟨0, 0, 1, 1⟩ : Detection)] ∧
          8 ≤ d.w * wSample.metadata.width ∧ 8 ≤ d.h * wSample.metadata.height ∧
          64 ≤ d.w * wSample.metadata.width * (d.h * wSample.metadata.height))) :=
  ⟨List.mem_cons_self .., rfl, ⟨⟨0, 0, 1, 1⟩, by simp, keep_wSample⟩,
    C1_keeps_passing_samples [wSample] 8 64 wSample [⟨0, 0, 1, 1⟩]
      (List.mem_cons_self ..) rfl ⟨⟨0, 0, 1, 1⟩, by simp, keep_wSample⟩⟩

/-- C2: whenever filter_small_boxes returns, the removed-box count it
returns equals boxes_before minus boxes_after, which equals the number of
detections failing at least one threshold summed over all input samples;
boxes_after counts only kept boxes across surviving samples, and the call
also returns the deleted-sample count. -/
theorem C2_removed_count (ds : List Sample) (ms ma : ℚ) (del rem : ℕ)
    (h : (filter_small_boxes ds ms ma).returned = some (del, rem)) :
    del = (filter_small_boxes ds ms ma).deletedSamples ∧
    rem = (filter_small_boxes ds ms ma).boxesBefore -
      (filter_small_boxes ds ms ma).boxesAfter ∧
    rem = totalFailing ms ma ds ∧
    (filter_small_boxes ds ms ma).boxesAfter =
      (((filter_small_boxes ds ms ma).store).map (fun t => (boxList t).length)).sum := by
  rw [filter_small_boxes_returned] at h
  by_cases hb : (cleanPass ms ma ds).before = 0
  · rw [if_pos hb] at h
    exact Option.noConfusion h
  · rw [if_neg hb] at h
    have hpair := Option.some_inj.1 h
    have h1 : (cleanPass ms ma ds).deleted = del := congrArg Prod.fst hpair
    have h2 : (cleanPass ms ma ds).before - (cleanPass ms ma ds).after = rem :=
      congrArg Prod.snd hpair
    have hsplit := cleanPass_before_split ms ma ds
    refine ⟨by rw [filter_small_boxes_deleted, h1], ?_, ?_, ?_⟩
    · rw [filter_small_boxes_before, filter_small_boxes_after, h2]
    · rw [← h2]; omega
    · rw [filter_small_boxes_after, filter_small_boxes_store]
      exact cleanPass_after_sum ms ma ds

/-- Witness for C2 at a concrete input: a collection with one surviving
sample, one all-failing sample and one sample with a falsy detections
field; the call returns deleted count 2 and removed count 1. -/
theorem C2_witness :
    (filter_small_boxes [wSample, wSmall, wNone] 8 64).returned = some (2, 1) ∧
    (2 = (filter_small_boxes [wSample, wSmall, wNone] 8 64).deletedSamples ∧
      1 = (filter_small_boxes [wSample, wSmall, wNone] 8 64).boxesBefore -
        (filter_small_boxes [wSample, wSmall, wNone] 8 64).boxesAfter ∧
      1 = totalFailing 8 64 [wSample, wSmall, wNone] ∧
      (filter_small_boxes [wSample, wSmall, wNone] 8 64).boxesAfter =
        (((filter_small_boxes [wSample, wSmall, wNone] 8 64).store).map
          (fun t => (boxList t).length)).sum) := by
  have hret : (filter_small_boxes [wSample, wSmall, wNone] 8 64).returned = some (2, 1) := by
    rw [filter_small_boxes_returned, cleanPass_w3]
    rfl
  exact ⟨hret, C2_removed_count [wSample, wSmall, wNone] 8 64 2 1 hret⟩

/-- C3: for every input collection and fixed thresholds, a second run of
filter_small_boxes on the store left by a first run deletes zero samples,
removes zero boxes (its before and after box counts agree), and leaves the
store unchanged. -/
theorem C3_idempotent (ds : List Sample) (ms ma : ℚ) :
    (filter_small_boxes (filter_small_boxes ds ms ma).store ms ma).deletedSamples = 0 ∧
    (filter_small_boxes (filter_small_boxes ds ms ma).store ms ma).boxesBefore =
      (filter_small_boxes (filter_small_boxes ds ms ma).store ms ma).boxesAfter ∧
    (filter_small_boxes (filter_small_boxes ds ms ma).store ms ma).store =
      (filter_small_boxes ds ms ma).store := by
  have hnoop := @cleanPass_noop ms ma ((cleanPass ms ma ds).store)
    (fun t ht => cleanPass_store_good ht)
  simp only [filter_small_boxes_store, filter_small_boxes_deleted, filter_small_boxes_before,
    filter_small_boxes_after]
  rw [hnoop]
  exact ⟨rfl, rfl, rfl⟩

/-- C4 counterexample: on a well-formed one-sample collection whose sample
carries an empty detections list, filter_small_boxes does not run to
completion: the sample is deleted, but the removal-rate statistics line
divides by the zero pre-filter box count, so no counts are returned. -/
theorem C4_counterexample :
    (filter_small_boxes [wEmpty] 8 64).returned = none ∧
    (filter_small_boxes [wEmpty] 8 64).deletedSamples = 1 := by
  have hnil : ([] : List Detection).filter (keepBox wEmpty.metadata 8 64) = [] := rfl
  have he : cleanPass 8 64 [wEmpty] = ⟨[], 1, 0, 0⟩ := by
    rw [cleanPass_cons_del rfl hnil, cleanPass_nil]
    rfl
  refine ⟨?_, ?_⟩
  · rw [filter_small_boxes_returned, he]
    rfl
  · rw [filter_small_boxes_deleted, he]

/-- C4 (amended): filter_small_boxes has one error condition of its own:
it fails to return (ZeroDivisionError in the removal-rate statistics line)
exactly when no input sample carries any counted detection; on every other
collection the call runs to completion and returns its deleted-sample and
removed-box counts. -/
theorem C4_amended_failure_condition (ds : List Sample) (ms ma : ℚ) :
    ((filter_small_boxes ds ms ma).returned = none ↔ ∀ s ∈ ds, boxList s = []) ∧
    ((filter_small_boxes ds ms ma).returned = none ∨
      (filter_small_boxes ds ms ma).returned =
        some ((filter_small_boxes ds ms ma).deletedSamples,
          (filter_small_boxes ds ms ma).boxesBefore -
            (filter_small_boxes ds ms ma).boxesAfter)) := by
  have hbox := cleanPass_before_boxes ms ma ds
  constructor
  · rw [filter_small_boxes_returned]
    by_cases hb : (cleanPass ms ma ds).before = 0
    · rw [if_pos hb]
      refine ⟨fun _ => ?_, fun _ => rfl⟩
      rw [hb] at hbox
      intro s hs
      have h0 : (boxList s).length = 0 :=
        natSum_eq_zero.1 hbox.symm _ (List.mem_map_of_mem _ hs)
      exact List.length_eq_zero.1 h0
    · rw [if_neg hb]
      refine ⟨fun h => Option.noConfusion h, fun hall => absurd ?_ hb⟩
      rw [hbox]
      refine natSum_eq_zero.2 ?_
      intro n hn
      obtain ⟨s, hs, rfl⟩ := List.mem_map.1 hn
      rw [hall s hs]
      rfl
  · rw [filter_small_boxes_returned, filter_small_boxes_deleted, filter_small_boxes_before,
      filter_small_boxes_after]
    by_cases hb : (cleanPass ms ma ds).before = 0
    · left; rw [if_pos hb]
    · right; rw [if_neg hb]

/-- C8: for every collection with distinct sample ids, a sample in which
every detection fails at least one threshold (or whose detections field is
falsy) is deleted: no sample with its id survives in the store, and
boxes_after counts exactly the kept boxes of the surviving samples, so the
deleted sample contributes zero to it. -/
theorem C8_failing_sample_deleted (ds : List Sample) (ms ma : ℚ) (s : Sample)
    (hnd : (ds.map Sample.id).Nodup) (hs : s ∈ ds) (hfail : failsAll ms ma s) :
    (∀ t ∈ (filter_small_boxes ds ms ma).store, t.id ≠ s.id) ∧
    (filter_small_boxes ds ms ma).boxesAfter =
      (((filter_small_boxes ds ms ma).store).map (fun t => (boxList t).length)).sum := by
  constructor
  · intro t ht hid
    rw [filter_small_boxes_store] at ht
    obtain ⟨u, hu, dets, hdet, hne, rfl⟩ := mem_cleanPass_store ds t ht
    have huid : u.id = s.id := hid
    have hus : u = s := List.inj_on_of_nodup_map hnd hu hs huid
    subst hus
    rcases hfail with hnone | ⟨dets2, hdet2, hall⟩
    · rw [hdet] at hnone; exact Option.noConfusion hnone
    · rw [hdet] at hdet2
      have hd : dets = dets2 := Option.some_inj.1 hdet2
      subst hd
      apply hne
      apply List.filter_eq_nil_iff.2
      intro d hd
      simp [hall d hd]
  · rw [filter_small_boxes_after, filter_small_boxes_store]
    exact cleanPass_after_sum ms ma ds

/-- Witness for C8 at a concrete input: the all-failing sample of a
two-sample collection is deleted. -/
theorem C8_witness :
    ([wSample, wSmall].map Sample.id).Nodup ∧
    wSmall ∈ [wSample, wSmall] ∧
    failsAll 8 64 wSmall ∧
    ((∀ t ∈ (filter_small_boxes [wSample, wSmall] 8 64).store, t.id ≠ wSmall.id) ∧
      (filter_small_boxes [wSample, wSmall] 8 64).boxesAfter =
        (((filter_small_boxes [wSample, wSmall] 8 64).store).map
          (fun t => (boxList t).length)).sum) := by
  have hfail : failsAll 8 64 wSmall := by
    refine Or.inr ⟨[⟨0, 0, 1, 1⟩], rfl, ?_⟩
    intro d hd
    rw [List.mem_singleton.1 hd]
    exact keep_wSmall
  exact ⟨by decide, by simp [wSample, wSmall], hfail,
    C8_failing_sample_deleted [wSample, wSmall] 8 64 wSmall (by decide)
      (by simp [wSample, wSmall]) hfail⟩

/-! ### Helper lemmas for the inference CLI -/

theorem pbatch_results (env : Env) (paths : List String) (conf : ℚ) (save : Bool)
    (outdir : String) :
    (process_batch_images env paths conf save outdir).results =
      batchLoop env conf save outdir paths := rfl

theorem pbatch_avg (env : Env) (paths : List String) (conf : ℚ) (save : Bool)
    (outdir : String) :
    (process_batch_images env paths conf save outdir).avg_time =
      (batchStats (batchLoop env conf save outdir paths)).1 := rfl

theorem pbatch_fps (env : Env) (paths : List String) (conf : ℚ) (save : Bool)
    (outdir : String) :
    (process_batch_images env paths conf save outdir).avg_fps =
      (batchStats (batchLoop env conf save outdir paths)).2 := rfl

theorem batchStats_avg (rs : List InferenceRecord) :
    (batchStats rs).1 =
      if rs.isEmpty then 0
      else (rs.map (fun r => r.inference_time_ms)).sum / (rs.length : ℚ) := rfl

theorem batchStats_fps (rs : List InferenceRecord) :
    (batchStats rs).2 =
      if 0 < (batchStats rs).1 then 1000 / (batchStats rs).1 else 0 := rfl

theorem mkRecord_num (env : Env) (q : String) (conf : ℚ) (save : Bool) (outdir : String) :
    (mkRecord env q conf save outdir).num_detections =
      (mkRecord env q conf save outdir).detections.length := rfl

theorem mkRecord_path (env : Env) (q : String) (conf : ℚ) (save : Bool) (outdir : String) :
    (mkRecord env q conf save outdir).image_path = q := rfl

theorem mkRecord_time (env : Env) (q : String) (conf : ℚ) (save : Bool) (outdir : String) :
    (mkRecord env q conf save outdir).inference_time_ms = env.timeMs q := rfl

theorem mkRecord_output (env : Env) (q : String) (conf : ℚ) (save : Bool) (outdir : String) :
    (mkRecord env q conf save outdir).output_path =
      (if save && !((mkRecord env q conf save outdir).detections.isEmpty) then
        some (osJoin outdir (pathStem q ++ "_result.jpg"))
      else none) := rfl

theorem summary_total_images (rs : List InferenceRecord) :
    (save_results_json_summary rs).total_images = rs.length := rfl

theorem summary_total_detections (rs : List InferenceRecord) :
    (save_results_json_summary rs).total_detections =
      (rs.map (fun r => r.num_detections)).sum := rfl

theorem summary_avg (rs : List InferenceRecord) :
    (save_results_json_summary rs).avg_inference_time_ms =
      npMean (rs.map (fun r => r.inference_time_ms)) := rfl

theorem batchLoop_eq (env : Env) (conf : ℚ) (save : Bool) (outdir : String)
    (paths : List String) :
    batchLoop env conf save outdir paths =
      (paths.filter (fun q => env.fileExists q)).map
        (fun q => mkRecord env q conf save outdir) := by
  induction paths with
  | nil => rfl
  | cons p rest ih =>
    by_cases hp : env.fileExists p = true
    · simp [batchLoop, process_single_image, hp, List.filter_cons, ih]
    · have hp2 : env.fileExists p = false := by
        cases hfe : env.fileExists p with
        | false => rfl
        | true => exact absurd hfe hp
      simp [batchLoop, process_single_image, hp2, List.filter_cons, ih]

theorem batchLoop_times_nonneg (env : Env) (conf : ℚ) (save : Bool) (outdir : String)
    (paths : List String) (ht : ∀ q, 0 ≤ env.timeMs q) :
    0 ≤ ((batchLoop env conf save outdir paths).map (fun r => r.inference_time_ms)).sum := by
  apply List.sum_nonneg
  intro x hx
  rw [batchLoop_eq] at hx
  obtain ⟨r, hr, rfl⟩ := List.mem_map.1 hx
  obtain ⟨q, _, rfl⟩ := List.mem_map.1 hr
  rw [mkRecord_time]
  exact ht q

/-! ### Claim theorems for the inference CLI -/

/-- C6: a single-image inference call on a nonexistent path fails
immediately with the missing-file error, while the batch runner isolates
per-image failures: its record list is exactly one successful record per
path passing the existence check, in order, so missing paths are skipped
without aborting the rest of the batch. -/
theorem C6_missing_path_semantics (env : Env) (conf : ℚ) (save : Bool)
    (outdir : String) (p : String) (paths : List String)
    (hp : env.fileExists p = false) :
    process_single_image env p conf save outdir =
      Except.error ("Image file not found: " ++ p) ∧
    (process_batch_images env paths conf save outdir).results =
      (paths.filter (fun q => env.fileExists q)).map
        (fun q => mkRecord env q conf save outdir) ∧
    ((process_batch_images env paths conf save outdir).results).length =
      (paths.filter (fun q => env.fileExists q)).length := by
  refine ⟨?_, ?_, ?_⟩
  · simp [process_single_image, hp]
  · rw [pbatch_results, batchLoop_eq]
  · rw [pbatch_results, batchLoop_eq, List.length_map]

/-- Witness for C6 at a concrete input: a batch of three images of which
b.jpg does not exist yields exactly the two records for a.jpg and c.jpg. -/
theorem C6_witness :
    wEnvM.fileExists "b.jpg" = false ∧
    (process_single_image wEnvM "b.jpg" 1 true "out" =
        Except.error ("Image file not found: " ++ "b.jpg") ∧
      (process_batch_images wEnvM ["a.jpg", "b.jpg", "c.jpg"] 1 true "out").results =
        (["a.jpg", "b.jpg", "c.jpg"].filter (fun q => wEnvM.fileExists q)).map
          (fun q => mkRecord wEnvM q 1 true "out") ∧
      ((process_batch_images wEnvM ["a.jpg", "b.jpg", "c.jpg"] 1 true "out").results).length =
        (["a.jpg", "b.jpg", "c.jpg"].filter (fun q => wEnvM.fileExists q)).length) ∧
    ((process_batch_images wEnvM ["a.jpg", "b.jpg", "c.jpg"] 1 true "out").results).length = 2 :=
  ⟨rfl, C6_missing_path_semantics wEnvM 1 true "out" "b.jpg" ["a.jpg", "b.jpg", "c.jpg"] rfl,
    rfl⟩

/-- C9: a processed image gets an annotated copy written, and its path
recorded in the record, exactly when saving is enabled and at least one
detection exists; with saving disabled or zero detections the record's
output path is null. The output name is the input stem plus the fixed
suffix inside the output directory. -/
theorem C9_annotated_output_iff (env : Env) (p : String) (conf : ℚ) (save : Bool)
    (outdir : String) (r : InferenceRecord)
    (h : process_single_image env p conf save outdir = Except.ok r) :
    (r.output_path = some (osJoin outdir (pathStem p ++ "_result.jpg")) ↔
      (save = true ∧ r.detections ≠ [])) ∧
    ((save = false ∨ r.detections = []) → r.output_path = none) := by
  by_cases hb : env.fileExists p = true
  · rw [process_single_image, if_pos hb] at h
    have hr : mkRecord env p conf save outdir = r := Except.ok.inj h
    subst hr
    rw [mkRecord_output]
    by_cases hs : save = true <;>
      by_cases hd : (mkRecord env p conf save outdir).detections = [] <;>
        simp [hs, hd, List.isEmpty_iff]
  · rw [process_single_image, if_neg hb] at h
    exact Except.noConfusion h

/-- Witness for C9 at a concrete input: with saving enabled and one
detection, the record points at the annotated file; with zero detections
the output path is null. -/
theorem C9_witness :
    process_single_image wEnvT "dir/img.jpg" 1 true "out" =
      Except.ok (mkRecord wEnvT "dir/img.jpg" 1 true "out") ∧
    (((mkRecord wEnvT "dir/img.jpg" 1 true "out").output_path =
        some (osJoin "out" (pathStem "dir/img.jpg" ++ "_result.jpg")) ↔
      (true = true ∧ (mkRecord wEnvT "dir/img.jpg" 1 true "out").detections ≠ [])) ∧
      ((true = false ∨ (mkRecord wEnvT "dir/img.jpg" 1 true "out").detections = []) →
        (mkRecord wEnvT "dir/img.jpg" 1 true "out").output_path = none)) ∧
    (mkRecord wEnvT "dir/img.jpg" 1 true "out").output_path = some "out/img_result.jpg" ∧
    (mkRecord wEnvZ "dir/img.jpg" 1 true "out").output_path = none :=
  ⟨rfl, C9_annotated_output_iff wEnvT "dir/img.jpg" 1 true "out"
      (mkRecord wEnvT "dir/img.jpg" 1 true "out") rfl, rfl, rfl⟩

/-- C10: every record accumulated by the batch runner is internally
consistent: its num_detections field equals the length of its detections
list, its image path is one of the batch paths, and its inference time is
the measured time for that path; every record returned by
process_single_image satisfies the same field consistency, and the
serialized summary counts agree with the records. -/
theorem C10_record_consistency (env : Env) (conf : ℚ) (save : Bool) (outdir : String)
    (paths : List String) (r : InferenceRecord)
    (hr : r ∈ (process_batch_images env paths conf save outdir).results) :
    r.num_detections = r.detections.length ∧
    r.image_path ∈ paths ∧
    r.inference_time_ms = env.timeMs r.image_path ∧
    (∀ q s, process_single_image env q conf save outdir = Except.ok s →
      s.num_detections = s.detections.length ∧ s.image_path = q) ∧
    (save_results_json_summary
      (process_batch_images env paths conf save outdir).results).total_images =
      ((process_batch_images env paths conf save outdir).results).length ∧
    (save_results_json_summary
      (process_batch_images env paths conf save outdir).results).total_detections =
      (((process_batch_images env paths conf save outdir).results).map
        (fun t => t.detections.length)).sum := by
  rw [pbatch_results, batchLoop_eq] at hr
  obtain ⟨q, hq, rfl⟩ := List.mem_map.1 hr
  have hq2 : q ∈ paths := (List.mem_filter.1 hq).1
  refine ⟨mkRecord_num .., ?_, ?_, ?_, rfl, ?_⟩
  · rw [mkRecord_path]; exact hq2
  · rw [mkRecord_path, mkRecord_time]
  · intro q' s hs
    by_cases hb : env.fileExists q' = true
    · rw [process_single_image, if_pos hb] at hs
      have hms : mkRecord env q' conf save outdir = s := Except.ok.inj hs
      subst hms
      exact ⟨mkRecord_num .., mkRecord_path ..⟩
    · rw [process_single_image, if_neg hb] at hs
      exact Except.noConfusion hs
  · rw [pbatch_results, batchLoop_eq, summary_total_detections, List.map_map, List.map_map]
    rfl

/-- Witness for C10 at a concrete input: the first record of a processed
two-image batch. -/
theorem C10_witness :
    mkRecord wEnvT "a.jpg" 1 true "out" ∈
      (process_batch_images wEnvT ["a.jpg", "b.jpg"] 1 true "out").results ∧
    ((mkRecord wEnvT "a.jpg" 1 true "out").num_detections =
        (mkRecord wEnvT "a.jpg" 1 true "out").detections.length ∧
      (mkRecord wEnvT "a.jpg" 1 true "out").image_path ∈ ["a.jpg", "b.jpg"] ∧
      (mkRecord wEnvT "a.jpg" 1 true "out").inference_time_ms =
        wEnvT.timeMs (mkRecord wEnvT "a.jpg" 1 true "out").image_path ∧
      (∀ q s, process_single_image wEnvT q 1 true "out" = Except.ok s →
        s.num_detections = s.detections.length ∧ s.image_path = q) ∧
      (save_results_json_summary
        (process_batch_images wEnvT ["a.jpg", "b.jpg"] 1 true "out").results).total_images =
        ((process_batch_images wEnvT ["a.jpg", "b.jpg"] 1 true "out").results).length ∧
      (save_results_json_summary
        (process_batch_images wEnvT ["a.jpg", "b.jpg"] 1 true "out").results).total_detections =
        (((process_batch_images wEnvT ["a.jpg", "b.jpg"] 1 true "out").results).map
          (fun t => t.detections.length)).sum) :=
  ⟨List.mem_cons_self ..,
    C10_record_consistency wEnvT 1 true "out" ["a.jpg", "b.jpg"]
      (mkRecord wEnvT "a.jpg" 1 true "out") (List.mem_cons_self ..)⟩

/-- C5 counterexample: with zero processed records, the batch statistics
default to 0, but the avg_inference_time_ms field written by
save_results_json is numpy.mean of an empty list, which is NaN (modelled
as none), not 0. -/
theorem C5_counterexample :
    (save_results_json_summary []).avg_inference_time_ms = none ∧
    (save_results_json_summary []).avg_inference_time_ms ≠ some 0 :=
  ⟨rfl, fun h => Option.noConfusion h⟩

/-- C5 (amended): for every batch run with nonnegative measured times, the
reported average inference time is the arithmetic mean over successfully
processed images only, defaulting to 0 when the processed set is empty,
and the reported FPS is 1000 / average, defined as 0 when the average is
0; the avg_inference_time_ms field of the persisted JSON summary equals
that mean for a nonempty processed set but is NaN (not 0) when the
processed set is empty. -/
theorem C5_amended_average (env : Env) (paths : List String) (conf : ℚ) (save : Bool)
    (outdir : String) (ht : ∀ q, 0 ≤ env.timeMs q) :
    ((process_batch_images env paths conf save outdir).results = [] →
      (process_batch_images env paths conf save outdir).avg_time = 0 ∧
      (process_batch_images env paths conf save outdir).avg_fps = 0 ∧
      (save_results_json_summary
        (process_batch_images env paths conf save outdir).results).avg_inference_time_ms =
        none) ∧
    ((process_batch_images env paths conf save outdir).results ≠ [] →
      (process_batch_images env paths conf save outdir).avg_time =
        (((process_batch_images env paths conf save outdir).results).map
          (fun r => r.inference_time_ms)).sum /
          ((((process_batch_images env paths conf save outdir).results).length : ℚ)) ∧
      (save_results_json_summary
        (process_batch_images env paths conf save outdir).results).avg_inference_time_ms =
        some ((process_batch_images env paths conf save outdir).avg_time) ∧
      ((process_batch_images env paths conf save outdir).avg_time = 0 →
        (process_batch_images env paths conf save outdir).avg_fps = 0) ∧
      ((process_batch_images env paths conf save outdir).avg_time ≠ 0 →
        (process_batch_images env paths conf save outdir).avg_fps =
          1000 / (process_batch_images env paths conf save outdir).avg_time)) := by
  constructor
  · intro hre
    rw [pbatch_results] at hre
    have havg0 : (process_batch_images env paths conf save outdir).avg_time = 0 := by
      rw [pbatch_avg, batchStats_avg, hre]
      rfl
    have hfps0 : (process_batch_images env paths conf save outdir).avg_fps = 0 := by
      rw [pbatch_fps, batchStats_fps, ← pbatch_avg, havg0]
      norm_num
    have hsum : (save_results_json_summary
        (process_batch_images env paths conf save outdir).results).avg_inference_time_ms =
        none := by
      rw [pbatch_results, hre, summary_avg]
      rfl
    exact ⟨havg0, hfps0, hsum⟩
  · intro hre
    rw [pbatch_results] at hre
    have hie : (batchLoop env conf save outdir paths).isEmpty = false := by
      cases hbl : batchLoop env conf save outdir paths with
      | nil => exact absurd hbl hre
      | cons a l => rfl
    have havg : (process_batch_images env paths conf save outdir).avg_time =
        ((batchLoop env conf save outdir paths).map (fun r => r.inference_time_ms)).sum /
          (((batchLoop env conf save outdir paths).length : ℚ)) := by
      rw [pbatch_avg, batchStats_avg, hie]
      rfl
    have hnonneg : 0 ≤ (process_batch_images env paths conf save outdir).avg_time := by
      rw [havg]
      exact div_nonneg (batchLoop_times_nonneg env conf save outdir paths ht)
        (Nat.cast_nonneg _)
    have hm : ((batchLoop env conf save outdir paths).map
        (fun r => r.inference_time_ms)).isEmpty = false := by
      cases hbl : batchLoop env conf save outdir paths with
      | nil => exact absurd hbl hre
      | cons a l => rfl
    refine ⟨?_, ?_, ?_, ?_⟩
    · rw [havg, pbatch_results]
    · rw [pbatch_results, summary_avg]
      unfold npMean
      rw [if_neg (fun h => Bool.false_ne_true (hm.symm.trans h)), List.length_map, ← havg]
    · intro h0
      rw [pbatch_fps, batchStats_fps, ← pbatch_avg, h0]
      norm_num
    · intro h0
      have hpos : 0 < (process_batch_images env paths conf save outdir).avg_time :=
        lt_of_le_of_ne hnonneg (Ne.symm h0)
      rw [pbatch_fps, batchStats_fps, ← pbatch_avg, if_pos hpos]

/-- Witness for C5 at a concrete input: three processed records with times
10, 20 and 30 ms give average 20 ms and 50 FPS. -/
theorem C5_witness :
    (∀ q, 0 ≤ wEnvT.timeMs q) ∧
    (((process_batch_images wEnvT ["a.jpg", "b.jpg", "c.jpg"] 1 true "out").results ≠ [] →
      (process_batch_images wEnvT ["a.jpg", "b.jpg", "c.jpg"] 1 true "out").avg_time =
        (((process_batch_images wEnvT ["a.jpg", "b.jpg", "c.jpg"] 1 true "out").results).map
          (fun r => r.inference_time_ms)).sum /
          ((((process_batch_images wEnvT ["a.jpg", "b.jpg", "c.jpg"] 1 true "out").results).length : ℚ)) ∧
      (save_results_json_summary
        (process_batch_images wEnvT ["a.jpg", "b.jpg", "c.jpg"] 1 true "out").results).avg_inference_time_ms =
        some ((process_batch_images wEnvT ["a.jpg", "b.jpg", "c.jpg"] 1 true "out").avg_time) ∧
      ((process_batch_images wEnvT ["a.jpg", "b.jpg", "c.jpg"] 1 true "out").avg_time = 0 →
        (process_batch_images wEnvT ["a.jpg", "b.jpg", "c.jpg"] 1 true "out").avg_fps = 0) ∧
      ((process_batch_images wEnvT ["a.jpg", "b.jpg", "c.jpg"] 1 true "out").avg_time ≠ 0 →
        (process_batch_images wEnvT ["a.jpg", "b.jpg", "c.jpg"] 1 true "out").avg_fps =
          1000 / (process_batch_images wEnvT ["a.jpg", "b.jpg", "c.jpg"] 1 true "out").avg_time))) ∧
    (process_batch_images wEnvT ["a.jpg", "b.jpg", "c.jpg"] 1 true "out").avg_time = 20 ∧
    (process_batch_images wEnvT ["a.jpg", "b.jpg", "c.jpg"] 1 true "out").avg_fps = 50 := by
  have ht : ∀ q, 0 ≤ wEnvT.timeMs q := by
    intro q
    show (0 : ℚ) ≤ if q == "a.jpg" then 10 else if q == "b.jpg" then 20 else 30
    by_cases h1 : (q == "a.jpg") = true
    · rw [if_pos h1]; norm_num
    · rw [if_neg h1]
      by_cases h2 : (q == "b.jpg") = true
      · rw [if_pos h2]; norm_num
      · rw [if_neg h2]; norm_num
  have hmap : ((batchLoop wEnvT 1 true "out" ["a.jpg", "b.jpg", "c.jpg"]).map
      (fun r => r.inference_time_ms)) = [10, 20, 30] := rfl
  have hlen : (batchLoop wEnvT 1 true "out" ["a.jpg", "b.jpg", "c.jpg"]).length = 3 := rfl
  have hie : (batchLoop wEnvT 1 true "out" ["a.jpg", "b.jpg", "c.jpg"]).isEmpty = false := rfl
  have havg : (process_batch_images wEnvT ["a.jpg", "b.jpg", "c.jpg"] 1 true "out").avg_time
      = 20 := by
    rw [pbatch_avg, batchStats_avg, hie, hmap, hlen]
    norm_num
  have hfps : (process_batch_images wEnvT ["a.jpg", "b.jpg", "c.jpg"] 1 true "out").avg_fps
      = 50 := by
    rw [pbatch_fps, batchStats_fps, ← pbatch_avg, havg]
    norm_num
  exact ⟨ht, (C5_amended_average wEnvT ["a.jpg", "b.jpg", "c.jpg"] 1 true "out" ht).2, havg,
    hfps⟩

/-! ### Helper lemmas for image-source resolution -/

theorem strLe_iff {a b : String} : strLe a b = true ↔ a ≤ b := by
  rw [strLe, decide_eq_true_eq]
  exact String.le_iff_toList_le.symm

theorem sortStrings_sorted (l : List String) :
    (sortStrings l).Sorted (fun a b : String => a ≤ b) := by
  have htrans : ∀ a b c : String,
      strLe a b = true → strLe b c = true → strLe a c = true := by
    intro a b c hab hbc
    rw [strLe_iff] at hab hbc ⊢
    exact le_trans hab hbc
  have htotal : ∀ a b : String, (strLe a b || strLe b a) = true := by
    intro a b
    rcases le_total a b with h | h
    · rw [strLe_iff.2 h]
      rfl
    · rw [strLe_iff.2 h, Bool.or_true]
  have h := List.sorted_mergeSort htrans htotal l
  exact h.imp (fun hab => strLe_iff.1 hab)

theorem sortStrings_nodup {l : List String} (h : l.Nodup) : (sortStrings l).Nodup :=
  (List.Perm.nodup_iff (List.mergeSort_perm l _)).2 h

theorem mem_sortStrings {l : List String} {a : String} : a ∈ sortStrings l ↔ a ∈ l :=
  List.mem_mergeSort

theorem dirPatterns_nodup : dirPatterns.Nodup := by decide

theorem dirPatterns_not_suffix :
    ∀ p₁ ∈ dirPatterns, ∀ p₂ ∈ dirPatterns, p₁ ≠ p₂ →
      p₁.data.isSuffixOf p₂.data = false := by decide

theorem matchesStar_unique {p₁ p₂ n : String} (hp₁ : p₁ ∈ dirPatterns)
    (hp₂ : p₂ ∈ dirPatterns) (hne : p₁ ≠ p₂)
    (h₁ : matchesStar p₁ n = true) (h₂ : matchesStar p₂ n = true) : False := by
  simp only [matchesStar, List.isSuffixOf_iff_suffix] at h₁ h₂
  rcases List.suffix_or_suffix_of_suffix h₁ h₂ with h | h
  · have hf := dirPatterns_not_suffix p₁ hp₁ p₂ hp₂ hne
    have ht : p₁.data.isSuffixOf p₂.data = true := by
      simp only [List.isSuffixOf_iff_suffix]
      exact h
    rw [hf] at ht
    exact Bool.noConfusion ht
  · have hf := dirPatterns_not_suffix p₂ hp₂ p₁ hp₁ hne.symm
    have ht : p₂.data.isSuffixOf p₁.data = true := by
      simp only [List.isSuffixOf_iff_suffix]
      exact h
    rw [hf] at ht
    exact Bool.noConfusion ht

theorem joinPath_inj {dir n₁ n₂ : String} (h : joinPath dir n₁ = joinPath dir n₂) :
    n₁ = n₂ := by
  have h2 := congrArg String.data h
  simp only [joinPath, String.data_append] at h2
  exact String.ext (List.append_cancel_left h2)

theorem dirList_nodup (fs : FileSys) (source : String)
    (hE : (fs.dirEntries source).Nodup) :
    (dirPatterns.flatMap (fun pat =>
      ((fs.dirEntries source).filter (fun n => matchesStar pat n)).map
        (fun n => joinPath source n))).Nodup := by
  rw [List.nodup_flatMap]
  constructor
  · intro pat _
    exact (hE.filter _).map (fun a b h => joinPath_inj h)
  · refine List.Pairwise.imp_of_mem ?_ dirPatterns_nodup
    intro p₁ p₂ hp₁ hp₂ hne x hx₁ hx₂
    obtain ⟨n₁, hn₁, rfl⟩ := List.mem_map.1 hx₁
    obtain ⟨n₂, hn₂, heq⟩ := List.mem_map.1 hx₂
    have hn : n₂ = n₁ := joinPath_inj heq
    subst hn
    exact matchesStar_unique hp₁ hp₂ hne (List.mem_filter.1 hn₁).2 (List.mem_filter.1 hn₂).2

theorem rawImageFiles_nodup (fs : FileSys) (source : String)
    (hE : (fs.dirEntries source).Nodup) (hG : (fs.globResult source).Nodup) :
    (rawImageFiles fs source).Nodup := by
  unfold rawImageFiles
  by_cases h1 : fs.isFile source = true
  · rw [if_pos h1]
    by_cases h2 : image_extensions.contains (lowerStr (pathSuffix source)) = true
    · rw [if_pos h2]; exact List.nodup_singleton _
    · rw [if_neg h2]; exact List.nodup_nil
  · rw [if_neg h1]
    by_cases h2 : fs.isDir source = true
    · rw [if_pos h2]; exact dirList_nodup fs source hE
    · rw [if_neg h2]; exact hG.filter _

theorem mem_rawImageFiles_dir {fs : FileSys} {source p : String}
    (h1 : fs.isFile source = false) (h2 : fs.isDir source = true) :
    p ∈ rawImageFiles fs source ↔
      ∃ n ∈ fs.dirEntries source,
        (∃ ext ∈ image_extensions,
          (matchesStar ext n = true ∨ matchesStar (upperStr ext) n = true)) ∧
        p = joinPath source n := by
  unfold rawImageFiles
  rw [if_neg (fun h => Bool.false_ne_true (h1.symm.trans h)), if_pos h2]
  simp only [List.mem_flatMap, List.mem_map, List.mem_filter]
  constructor
  · rintro ⟨pat, hpat, n, ⟨hn, hm⟩, rfl⟩
    have hcase : ∃ ext ∈ image_extensions, pat = ext ∨ pat = upperStr ext := by
      simpa [dirPatterns] using hpat
    obtain ⟨ext, hext, hc⟩ := hcase
    refine ⟨n, hn, ⟨ext, hext, ?_⟩, rfl⟩
    rcases hc with rfl | rfl
    · exact Or.inl hm
    · exact Or.inr hm
  · rintro ⟨n, hn, ⟨ext, hext, hc⟩, rfl⟩
    rcases hc with hm | hm
    · refine ⟨ext, ?_, n, ⟨hn, hm⟩, rfl⟩
      simp only [dirPatterns, List.mem_flatMap]
      exact ⟨ext, hext, by simp⟩
    · refine ⟨upperStr ext, ?_, n, ⟨hn, hm⟩, rfl⟩
      simp only [dirPatterns, List.mem_flatMap]
      exact ⟨ext, hext, by simp⟩

/-- C7: image-source resolution returns a deduplicated, sorted list; a
single existing file is kept iff its lower-cased extension is in the fixed
allow-list; a directory yields the entries directly inside it matching the
allow-list in original-case or upper-case extension variants; any other
source is expanded as a glob and filtered by the same allow-list; a
nonexistent path with no glob matches yields the empty list. -/
theorem C7_image_source_resolution (fs : FileSys) (source : String)
    (hE : (fs.dirEntries source).Nodup) (hG : (fs.globResult source).Nodup) :
    (get_image_files fs source).Sorted (fun a b : String => a ≤ b) ∧
    (get_image_files fs source).Nodup ∧
    (fs.isFile source = true →
      get_image_files fs source =
        (if image_extensions.contains (lowerStr (pathSuffix source)) then [source] else [])) ∧
    (fs.isFile source = false → fs.isDir source = true →
      ∀ p, (p ∈ get_image_files fs source ↔
        ∃ n ∈ fs.dirEntries source,
          (∃ ext ∈ image_extensions,
            (matchesStar ext n = true ∨ matchesStar (upperStr ext) n = true)) ∧
          p = joinPath source n)) ∧
    (fs.isFile source = false → fs.isDir source = false →
      ∀ p, (p ∈ get_image_files fs source ↔
        (p ∈ fs.globResult source ∧
          image_extensions.contains (lowerStr (pathSuffix p)) = true))) ∧
    (fs.isFile source = false → fs.isDir source = false →
      fs.globResult source = [] → get_image_files fs source = []) := by
  refine ⟨sortStrings_sorted _, sortStrings_nodup (rawImageFiles_nodup fs source hE hG),
    ?_, ?_, ?_, ?_⟩
  · intro h1
    unfold get_image_files
    have hraw : rawImageFiles fs source =
        (if image_extensions.contains (lowerStr (pathSuffix source)) then [source] else []) := by
      unfold rawImageFiles
      rw [if_pos h1]
    rw [hraw]
    by_cases h2 : image_extensions.contains (lowerStr (pathSuffix source)) = true
    · rw [if_pos h2]
      exact List.mergeSort_of_sorted (List.pairwise_singleton _ _)
    · rw [if_neg h2]
      exact List.mergeSort_nil
  · intro h1 h2 p
    unfold get_image_files
    rw [mem_sortStrings]
    exact mem_rawImageFiles_dir h1 h2
  · intro h1 h2 p
    unfold get_image_files
    rw [mem_sortStrings]
    unfold rawImageFiles
    rw [if_neg (fun h => Bool.false_ne_true (h1.symm.trans h)),
      if_neg (fun h => Bool.false_ne_true (h2.symm.trans h))]
    simp [List.mem_filter]
  · intro h1 h2 h3
    unfold get_image_files rawImageFiles
    rw [if_neg (fun h => Bool.false_ne_true (h1.symm.trans h)),
      if_neg (fun h => Bool.false_ne_true (h2.symm.trans h)), h3]
    simp [sortStrings]

/-- Witness for C7 at a concrete input: a directory imgs containing a.jpg,
b.PNG and c.txt resolves to exactly [imgs/a.jpg, imgs/b.PNG] in sorted
order. -/
theorem C7_witness :
    (wFS.dirEntries "imgs").Nodup ∧
    (wFS.globResult "imgs").Nodup ∧
    ((get_image_files wFS "imgs").Sorted (fun a b : String => a ≤ b) ∧
      (get_image_files wFS "imgs").Nodup ∧
      (wFS.isFile "imgs" = true →
        get_image_files wFS "imgs" =
          (if image_extensions.contains (lowerStr (pathSuffix "imgs")) then ["imgs"] else [])) ∧
      (wFS.isFile "imgs" = false → wFS.isDir "imgs" = true →
        ∀ p, (p ∈ get_image_files wFS "imgs" ↔
          ∃ n ∈ wFS.dirEntries "imgs",
            (∃ ext ∈ image_extensions,
              (matchesStar ext n = true ∨ matchesStar (upperStr ext) n = true)) ∧
            p = joinPath "imgs" n)) ∧
      (wFS.isFile "imgs" = false → wFS.isDir "imgs" = false →
        ∀ p, (p ∈ get_image_files wFS "imgs" ↔
          (p ∈ wFS.globResult "imgs" ∧
            image_extensions.contains (lowerStr (pathSuffix p)) = true))) ∧
      (wFS.isFile "imgs" = false → wFS.isDir "imgs" = false →
        wFS.globResult "imgs" = [] → get_image_files wFS "imgs" = [])) ∧
    get_image_files wFS "imgs" = ["imgs/a.jpg", "imgs/b.PNG"] := by
  have hraw : rawImageFiles wFS "imgs" = ["imgs/a.jpg", "imgs/b.PNG"] := rfl
  have hres : get_image_files wFS "imgs" = ["imgs/a.jpg", "imgs/b.PNG"] := by
    unfold get_image_files
    rw [hraw]
    exact List.mergeSort_of_sorted (by decide)
  exact ⟨by decide, by decide,
    C7_image_source_resolution wFS "imgs" (by decide) (by decide), hres⟩

end Beetle
